import Mathlib

/-!
Verification of the sped_fixer repository core.

Python strings are modelled as `List Char` (`Str`), so that splitting and
joining on delimiter characters can be reasoned about with `List.splitOn`
and `List.intercalate`.  Text is assumed LF-terminated (the repository reads
files in text mode, where universal newlines normalise `\r\n` to `\n`), and
`str.strip()` is modelled with `Char.isWhitespace`, which covers the ASCII
whitespace appearing in SPED files.
-/

abbrev Str := List Char

/-- Python `str.strip()`: drop whitespace from both ends. -/
def pythonStrip (l : Str) : Str :=
  ((l.dropWhile Char.isWhitespace).reverse.dropWhile Char.isWhitespace).reverse

/-- `sep.join(parts)` for a one-character separator. -/
def joinSep (c : Char) (ls : List Str) : Str :=
  List.intercalate [c] ls

/-! ## core/parsers.py -/

/-- `parsers.Record`: `line_no`, `reg`, `fields`, `raw`. -/
structure PRec where
  line_no : Nat
  reg : Str
  fields : List Str
  raw : Str
deriving DecidableEq

namespace SpedParser

/-- One iteration of `SpedParser.parse`'s loop body: `none` when the line is
skipped (blank after strip).  Mirrors `parsers.py` lines 15-29.  The
`try/except ValueError` around `parts.index(reg)` is dead code: `reg` is
either the first non-empty element of `parts` or `""` when all elements are
empty, and in both cases `reg` occurs in `parts`; `List.indexOf` therefore
models `parts.index(reg)` exactly. -/
def parseLine (i : Nat) (line : Str) : Option PRec :=
  if pythonStrip line = [] then none
  else
    let parts := (pythonStrip line).splitOn '|'
    let tokens := parts.filter (fun p => p ≠ [])
    let reg := tokens.headD []
    let regIndex := parts.indexOf reg
    let fields :=
      if line.getLast? = some '|' then (parts.drop (regIndex + 1)).dropLast
      else parts.drop (regIndex + 1)
    some ⟨i, reg, fields, line⟩

/-- `for i, line in enumerate(text.splitlines(), start=1)`, with the record
accumulation of `SpedParser.parse`. -/
def parseFrom : Nat → List Str → List PRec
  | _, [] => []
  | i, l :: ls =>
    match parseLine i l with
    | none => parseFrom (i + 1) ls
    | some r => r :: parseFrom (i + 1) ls

/-- `SpedParser.parse` (parsers.py lines 13-30). -/
def parse (text : Str) : List PRec :=
  parseFrom 1 (text.splitOn '\n')

/-- The line built for one record by `SpedParser.reassemble`:
`"|" + r.reg + "|" + "|".join(r.fields) + "|"`. -/
def reassembleLine (r : PRec) : Str :=
  '|' :: r.reg ++ '|' :: joinSep '|' r.fields ++ ['|']

/-- `SpedParser.reassemble` (parsers.py lines 32-36):
`"\n".join(out) + "\n"`. -/
def reassemble (rs : List PRec) : Str :=
  joinSep '\n' (rs.map reassembleLine) ++ ['\n']

end SpedParser

/-- A record list in the canonical SPED shape: non-empty `reg`, at least one
field, and no delimiter or newline characters inside `reg` or the fields. -/
def CanonicalRec (r : PRec) : Prop :=
  r.reg ≠ [] ∧ '|' ∉ r.reg ∧ '\n' ∉ r.reg ∧ r.fields ≠ [] ∧
    ∀ f ∈ r.fields, '|' ∉ f ∧ '\n' ∉ f

instance : DecidablePred CanonicalRec := fun r => by
  unfold CanonicalRec; infer_instance

/-! ### Helper lemmas about `joinSep` -/

theorem joinSep_nil (c : Char) : joinSep c [] = [] := rfl

theorem joinSep_single (c : Char) (a : Str) : joinSep c [a] = a := by
  simp [joinSep, List.intercalate, List.intersperse]

theorem joinSep_cons_cons (c : Char) (a b : Str) (t : List Str) :
    joinSep c (a :: b :: t) = a ++ c :: joinSep c (b :: t) := by
  simp [joinSep, List.intercalate, List.intersperse]

theorem joinSep_append_empty (c : Char) :
    ∀ (xs : List Str), xs ≠ [] → joinSep c (xs ++ [[]]) = joinSep c xs ++ [c]
  | [], h => absurd rfl h
  | [a], _ => by
      rw [List.singleton_append, joinSep_cons_cons, joinSep_single, joinSep_single]
  | a :: b :: t, _ => by
      have ih := joinSep_append_empty c (b :: t) (by simp)
      show joinSep c (a :: b :: (t ++ [[]])) = _
      rw [joinSep_cons_cons, joinSep_cons_cons,
        show (b :: (t ++ [[]])) = (b :: t) ++ [[]] from rfl, ih, List.append_assoc]
      simp

theorem mem_joinSep {x : Char} {c : Char} :
    ∀ {ls : List Str}, x ∈ joinSep c ls → x = c ∨ ∃ l ∈ ls, x ∈ l
  | [], h => by simp [joinSep_nil] at h
  | [a], h => by rw [joinSep_single] at h; exact Or.inr ⟨a, by simp, h⟩
  | a :: b :: t, h => by
      rw [joinSep_cons_cons, List.mem_append, List.mem_cons] at h
      rcases h with h | h | h
      · exact Or.inr ⟨a, by simp, h⟩
      · exact Or.inl h
      · rcases mem_joinSep h with h | ⟨l, hl, hxl⟩
        · exact Or.inl h
        · exact Or.inr ⟨l, by simp [hl], hxl⟩

/-- The reassembled line is the `'|'`-intercalation of
`[""] ++ [reg] ++ fields ++ [""]` (for a non-empty field list). -/
theorem frame_eq_joinSep (reg : Str) :
    ∀ (fs : List Str), fs ≠ [] →
      '|' :: reg ++ '|' :: joinSep '|' fs ++ ['|'] =
        joinSep '|' ([[], reg] ++ fs ++ [[]])
  | [], h => absurd rfl h
  | f :: t, _ => by
      have h1 : joinSep '|' ([[], reg] ++ (f :: t) ++ [[]]) =
          '|' :: (reg ++ '|' :: joinSep '|' ((f :: t) ++ [[]])) := by
        show joinSep '|' ([] :: reg :: f :: (t ++ [[]])) = _
        rw [joinSep_cons_cons, joinSep_cons_cons]
        simp
      rw [h1, joinSep_append_empty '|' (f :: t) (by simp)]
      simp

theorem pythonStrip_pipe_frame (m : Str) :
    pythonStrip ('|' :: m ++ ['|']) = '|' :: m ++ ['|'] := by
  unfold pythonStrip
  have hpipe : Char.isWhitespace '|' = false := by decide
  have h1 : List.dropWhile Char.isWhitespace ('|' :: (m ++ ['|'])) =
      '|' :: (m ++ ['|']) := by
    rw [List.dropWhile_cons, hpipe]; simp
  rw [show ('|' :: m ++ ['|']) = '|' :: (m ++ ['|']) from rfl, h1]
  have h2 : ('|' :: (m ++ ['|'])).reverse = '|' :: ('|' :: m).reverse := by
    simp
  rw [h2, List.dropWhile_cons, hpipe]
  simp

theorem reassembleLine_shape (r : PRec) :
    SpedParser.reassembleLine r =
      '|' :: (r.reg ++ '|' :: joinSep '|' r.fields) ++ ['|'] := by
  simp [SpedParser.reassembleLine]

theorem nl_not_mem_reassembleLine (r : PRec) (h : CanonicalRec r) :
    '\n' ∉ SpedParser.reassembleLine r := by
  obtain ⟨-, -, hnr, -, hfields⟩ := h
  intro hmem
  rw [reassembleLine_shape, List.mem_append, List.mem_cons] at hmem
  rcases hmem with h1 | h1
  · rcases h1 with h1 | h1
    · exact absurd h1 (by decide)
    · rw [List.mem_append, List.mem_cons] at h1
      rcases h1 with h1 | h1 | h1
      · exact hnr h1
      · exact absurd h1 (by decide)
      · rcases mem_joinSep h1 with h2 | ⟨l, hl, hxl⟩
        · exact absurd h2 (by decide)
        · exact (hfields l hl).2 hxl
  · simp at h1

/-- Parsing a canonically reassembled line recovers `reg` and `fields`. -/
theorem parseLine_frame (i : Nat) (r : PRec) (h : CanonicalRec r) :
    SpedParser.parseLine i (SpedParser.reassembleLine r) =
      some ⟨i, r.reg, r.fields, SpedParser.reassembleLine r⟩ := by
  obtain ⟨hreg, hpr, hnr, hf, hfields⟩ := h
  have hshape := reassembleLine_shape r
  have hstrip : pythonStrip (SpedParser.reassembleLine r) =
      SpedParser.reassembleLine r := by
    rw [hshape]; exact pythonStrip_pipe_frame _
  have hframe : SpedParser.reassembleLine r =
      joinSep '|' ([[], r.reg] ++ r.fields ++ [[]]) := by
    rw [SpedParser.reassembleLine, frame_eq_joinSep r.reg r.fields hf]
  have hsplit : (SpedParser.reassembleLine r).splitOn '|' =
      [[], r.reg] ++ r.fields ++ [[]] := by
    rw [hframe]
    exact List.splitOn_intercalate _ '|'
      (by
        intro l hl
        simp at hl
        rcases hl with h1 | h1 | h1 | h1
        · simp [h1]
        · rw [h1]; exact hpr
        · exact (hfields l h1).1
        · simp [h1])
      (by simp)
  have hne : pythonStrip (SpedParser.reassembleLine r) ≠ [] := by
    rw [hstrip, hshape]; simp
  rw [SpedParser.parseLine, if_neg hne, hstrip, hsplit]
  have e1 : (([] : Str) == r.reg) = false := by
    rw [beq_eq_false_iff_ne]; exact Ne.symm hreg
  have e2 : (r.reg == r.reg) = true := beq_self_eq_true r.reg
  have hidx : List.indexOf r.reg ([[], r.reg] ++ r.fields ++ [[]]) = 1 := by
    show List.indexOf r.reg ([] :: r.reg :: (r.fields ++ [[]])) = 1
    simp [List.indexOf, List.findIdx_cons, e1, e2]
  have htok : (List.filter (fun p => decide (p ≠ []))
      ([[], r.reg] ++ r.fields ++ [[]])).headD [] = r.reg := by
    show (List.filter (fun p => decide (p ≠ []))
      ([] :: r.reg :: (r.fields ++ [[]]))).headD [] = r.reg
    rw [List.filter_cons, List.filter_cons]
    simp [hreg]
  have hlast : (SpedParser.reassembleLine r).getLast? = some '|' := by
    rw [hshape]; exact List.getLast?_concat _
  have hdrop : (List.drop (1 + 1) ([[], r.reg] ++ r.fields ++ [[]])).dropLast =
      r.fields := by
    show (List.drop 2 ([] :: r.reg :: (r.fields ++ [[]]))).dropLast = r.fields
    simp
  simp only [htok, hidx, hlast, hdrop, if_pos rfl]
  simp

theorem parseLine_empty (i : Nat) : SpedParser.parseLine i [] = none := by
  simp [SpedParser.parseLine, pythonStrip]

/-- Parsing the reassembled lines (followed by the empty line produced by
the trailing newline) recovers, line by line, records with the same `reg`
and `fields`, hence identical reassembled lines. -/
theorem parseFrom_frames :
    ∀ (rs : List PRec), (∀ r ∈ rs, CanonicalRec r) → ∀ i,
      (SpedParser.parseFrom i
          ((rs.map SpedParser.reassembleLine) ++ [[]])).map
        SpedParser.reassembleLine = rs.map SpedParser.reassembleLine
  | [], _, i => by
      simp [SpedParser.parseFrom, parseLine_empty]
  | r :: t, h, i => by
      have hr := h r (by simp)
      have ih := parseFrom_frames t (fun x hx => h x (by simp [hx])) (i + 1)
      show (SpedParser.parseFrom i (SpedParser.reassembleLine r ::
        ((t.map SpedParser.reassembleLine) ++ [[]]))).map
          SpedParser.reassembleLine = _
      rw [SpedParser.parseFrom, parseLine_frame i r hr]
      simp only [List.map_cons, ih, List.map_cons]
      rfl

/-- C1 (amended): on inputs in canonical framing — each line is
`|REG|f1|…|fN|` with non-empty `REG`, at least one field, and no `|` or
newline inside `REG` or the fields — `reassemble ∘ parse` is the identity
(such inputs already carry the normalised trailing newline). -/
theorem reassemble_parse_roundtrip (rs : List PRec)
    (h : ∀ r ∈ rs, CanonicalRec r) :
    SpedParser.reassemble (SpedParser.parse (SpedParser.reassemble rs)) =
      SpedParser.reassemble rs := by
  cases rs with
  | nil => decide
  | cons a t =>
    have hmapne : (a :: t).map SpedParser.reassembleLine ≠ [] := by simp
    have hsplit : (SpedParser.reassemble (a :: t)).splitOn '\n' =
        ((a :: t).map SpedParser.reassembleLine) ++ [[]] := by
      rw [SpedParser.reassemble, ← joinSep_append_empty '\n' _ hmapne]
      exact List.splitOn_intercalate _ '\n'
        (by
          intro l hl
          rw [List.mem_append] at hl
          rcases hl with h1 | h1
          · rw [List.mem_map] at h1
            obtain ⟨x, hx, rfl⟩ := h1
            exact nl_not_mem_reassembleLine x (h x hx)
          · simp at h1; simp [h1])
        (by simp)
    rw [show SpedParser.reassemble (SpedParser.parse
        (SpedParser.reassemble (a :: t))) =
      joinSep '\n' ((SpedParser.parse (SpedParser.reassemble (a :: t))).map
        SpedParser.reassembleLine) ++ ['\n'] from rfl]
    rw [SpedParser.parse, hsplit, parseFrom_frames (a :: t) h 1]
    rfl

/-- C1 witness input. -/
def c1WitnessRecs : List PRec :=
  [⟨1, "0000".data, ["017".data, "0".data], []⟩,
   ⟨2, "0150".data, ["P1".data, "ACME".data], []⟩]

/-- Witness for C1: the amended round-trip theorem applied to a concrete
two-record canonical file. -/
theorem reassemble_parse_roundtrip_witness :
    SpedParser.reassemble (SpedParser.parse
        (SpedParser.reassemble c1WitnessRecs)) =
      SpedParser.reassemble c1WitnessRecs :=
  reassemble_parse_roundtrip c1WitnessRecs (by decide)

/-- C1 counterexample: the claim quantifies over *every* input string, but
on the input `"hello"` (no pipe framing) the parser–reassembler round trip
returns `"|hello||\n"`, which differs from the input under any trailing
newline normalisation. -/
theorem roundtrip_fails_on_unframed_input :
    SpedParser.reassemble (SpedParser.parse "hello".data) =
        "|hello||\n".data ∧
      "|hello||\n".data ≠ "hello".data ∧
      "|hello||\n".data ≠ "hello\n".data := by
  refine ⟨by decide, by decide, by decide⟩

/-- C8 counterexample: the line `"|||"` is non-blank and, after splitting
on `|` and discarding empty tokens, yields no token; the claim says no
record is produced, but `parse` appends a record (with `reg = ""` and two
empty fields) for it. -/
theorem parse_pipe_only_line_produces_record :
    SpedParser.parse "|||".data = [⟨1, [], [[], []], "|||".data⟩] ∧
      SpedParser.parse "|||".data ≠ [] := ⟨by decide, by decide⟩

theorem parseLine_eq_none (i : Nat) (l : Str) :
    SpedParser.parseLine i l = none ↔ pythonStrip l = [] := by
  unfold SpedParser.parseLine
  by_cases h : pythonStrip l = [] <;> simp [h]

theorem parseFrom_length_aux :
    ∀ (ls : List Str) (i : Nat),
      (SpedParser.parseFrom i ls).length =
        ls.countP (fun l => !(pythonStrip l).isEmpty)
  | [], _ => rfl
  | l :: ls, i => by
      have ih := parseFrom_length_aux ls (i + 1)
      cases hp : SpedParser.parseLine i l with
      | none =>
          have h : pythonStrip l = [] := (parseLine_eq_none i l).1 hp
          simp only [SpedParser.parseFrom, hp, List.countP_cons, h, ih]
          simp
      | some r =>
          have h : ¬ pythonStrip l = [] := by
            intro hh
            rw [(parseLine_eq_none i l).2 hh] at hp
            exact Option.noConfusion hp
          simp only [SpedParser.parseFrom, hp, List.countP_cons, ih]
          simp [List.isEmpty_iff, h]
          exact ih

theorem headD_filter_eq_nil (l : List Str)
    (h : ((l.filter fun p => p ≠ []).headD []) = []) : ∀ p ∈ l, p = [] := by
  cases hf : l.filter (fun p => p ≠ []) with
  | nil =>
      intro p hp
      by_contra hne
      have hmem : p ∈ l.filter (fun p => p ≠ []) :=
        List.mem_filter.2 ⟨hp, by simp [hne]⟩
      rw [hf] at hmem
      simp at hmem
  | cons a t =>
      rw [hf] at h
      simp only [List.headD_cons] at h
      have hmem : a ∈ l.filter (fun p => p ≠ []) := by
        rw [hf]
        simp
      have h2 := (List.mem_filter.1 hmem).2
      rw [h] at h2
      simp at h2

/-- Any non-empty segment list decomposes as an all-empty prefix followed
by its first non-empty segment (or as the empty-headed list when every
segment is empty), and `parts.index(reg)` is the prefix length. -/
theorem firstToken_decomp :
    ∀ (parts : List Str), parts ≠ [] →
      ∃ pre rest,
        parts = pre ++ ((parts.filter fun p => p ≠ []).headD []) :: rest ∧
          (∀ p ∈ pre, p = []) ∧
          (((parts.filter fun p => p ≠ []).headD []) = [] →
            pre = [] ∧ ∀ p ∈ rest, p = []) ∧
          parts.indexOf ((parts.filter fun p => p ≠ []).headD []) = pre.length
  | [], h => absurd rfl h
  | x :: parts', _ => by
      by_cases hx : x = []
      · subst hx
        by_cases hreg : ((([] :: parts').filter fun p => p ≠ []).headD []) = []
        · refine ⟨[], parts', by rw [hreg]; simp, by simp,
            fun _ => ⟨rfl, ?_⟩, ?_⟩
          · have hall := headD_filter_eq_nil ([] :: parts') hreg
            intro p hp
            exact hall p (by simp [hp])
          · rw [hreg]
            simp [List.indexOf, List.findIdx_cons]
        · have hpne : parts' ≠ [] := by
            intro hps
            rw [hps] at hreg
            simp at hreg
          obtain ⟨pre2, rest2, hdec, hpre, hnil, hidx⟩ :=
            firstToken_decomp parts' hpne
          have hfeq : (([] :: parts').filter fun p => p ≠ []) =
              (parts'.filter fun p => p ≠ []) := by
            rw [List.filter_cons]
            simp
          have hregne : ((parts'.filter fun p => p ≠ []).headD []) ≠ [] := by
            rw [← hfeq]
            exact hreg
          refine ⟨[] :: pre2, rest2, ?_, ?_, fun habs => absurd habs hreg, ?_⟩
          · rw [hfeq]
            simpa using hdec
          · intro p hp
            rcases List.mem_cons.mp hp with rfl | hp2
            · rfl
            · exact hpre p hp2
          · rw [hfeq]
            have e1 : (([] : Str) ==
                ((parts'.filter fun p => p ≠ []).headD [])) = false := by
              rw [beq_eq_false_iff_ne]
              exact Ne.symm hregne
            have hstep : List.indexOf
                ((parts'.filter fun p => p ≠ []).headD []) ([] :: parts') =
                List.indexOf
                  ((parts'.filter fun p => p ≠ []).headD []) parts' + 1 := by
              generalize hg : (parts'.filter fun p => p ≠ []).headD [] = a
                at e1 ⊢
              simp [List.indexOf, List.findIdx_cons, e1]
            rw [hstep, hidx]
            simp
      · have hfeq : ((x :: parts').filter fun p => p ≠ []) =
            x :: (parts'.filter fun p => p ≠ []) := by
          rw [List.filter_cons]
          simp [hx]
        refine ⟨[], parts', ?_, by simp, ?_, ?_⟩
        · rw [hfeq]
          simp
        · intro habs
          rw [hfeq] at habs
          simp only [List.headD_cons] at habs
          exact absurd habs hx
        · rw [hfeq]
          have e2 : (x == x) = true := beq_self_eq_true x
          simp [List.indexOf, List.findIdx_cons, e2]

/-- Content of every record `parseLine` produces: the stripped line's
`'|'`-split decomposes as an all-empty prefix, then `reg` (the first
non-empty token, or `""` with all segments empty), then `rest`; the
record's fields are `rest`, dropping the final segment when the raw line
ends with `'|'`. -/
theorem parseLine_content (i : Nat) (l : Str) (r : PRec)
    (h : SpedParser.parseLine i l = some r) :
    r.raw = l ∧ pythonStrip l ≠ [] ∧
      ∃ pre rest, (pythonStrip l).splitOn '|' = pre ++ r.reg :: rest ∧
        (∀ p ∈ pre, p = []) ∧
        (r.reg = [] → pre = [] ∧ ∀ p ∈ rest, p = []) ∧
        r.fields = (if l.getLast? = some '|' then rest.dropLast else rest) := by
  rw [SpedParser.parseLine] at h
  by_cases hb : pythonStrip l = []
  · rw [if_pos hb] at h
    exact absurd h (by simp)
  · rw [if_neg hb] at h
    have hne : (pythonStrip l).splitOn '|' ≠ [] := by
      rw [List.splitOn]
      exact List.splitOnP_ne_nil _ _
    obtain ⟨pre, rest, hdec, hpre, hnil, hidx⟩ :=
      firstToken_decomp ((pythonStrip l).splitOn '|') hne
    have hdrop : ((pythonStrip l).splitOn '|').drop
        (((pythonStrip l).splitOn '|').indexOf
          ((((pythonStrip l).splitOn '|').filter fun p => p ≠ []).headD [])
          + 1) = rest := by
      rw [hidx]
      conv_lhs => rw [hdec]
      rw [show pre ++
          ((((pythonStrip l).splitOn '|').filter fun p => p ≠ []).headD [])
            :: rest =
        (pre ++
          [(((pythonStrip l).splitOn '|').filter fun p => p ≠ []).headD []])
            ++ rest from by simp]
      exact List.drop_left' (by simp)
    simp only [] at h
    have h3 := Option.some_inj.mp h
    subst h3
    refine ⟨rfl, hb, pre, rest, hdec, hpre, hnil, ?_⟩
    simp only [hdrop]

/-- Which line each parsed record comes from. -/
theorem parseFrom_mem_origin :
    ∀ (ls : List Str) (i : Nat) (r : PRec), r ∈ SpedParser.parseFrom i ls →
      ∃ l ∈ ls, ∃ j, SpedParser.parseLine j l = some r
  | [], _, r, h => by simp [SpedParser.parseFrom] at h
  | l :: ls, i, r, h => by
      cases hp : SpedParser.parseLine i l with
      | none =>
          simp only [SpedParser.parseFrom, hp] at h
          obtain ⟨l2, hl2, j, hj⟩ := parseFrom_mem_origin ls (i + 1) r h
          exact ⟨l2, by simp [hl2], j, hj⟩
      | some r2 =>
          simp only [SpedParser.parseFrom, hp] at h
          rcases List.mem_cons.mp h with rfl | h2
          · exact ⟨l, by simp, i, hp⟩
          · obtain ⟨l2, hl2, j, hj⟩ := parseFrom_mem_origin ls (i + 1) r h2
            exact ⟨l2, by simp [hl2], j, hj⟩

/-- C8 (amended): `parse` produces exactly one record for every non-blank
line, and for each produced record the stripped line's `'|'`-split
decomposes as an all-empty prefix followed by `reg` and the field
segments: `reg` is the first non-empty token (or `""`, with every segment
empty, when the line has no non-empty token — such lines are *not*
skipped), and the fields are exactly the segments after `reg`'s position,
dropping the final segment when the raw line ends with `'|'`. -/
theorem parse_nonblank_spec (text : Str) :
    (SpedParser.parse text).length =
        ((text.splitOn '\n').countP fun l => !(pythonStrip l).isEmpty) ∧
      ∀ r ∈ SpedParser.parse text,
        r.raw ∈ text.splitOn '\n' ∧ pythonStrip r.raw ≠ [] ∧
        ∃ pre rest,
          (pythonStrip r.raw).splitOn '|' = pre ++ r.reg :: rest ∧
            (∀ p ∈ pre, p = []) ∧
            (r.reg = [] → pre = [] ∧ ∀ p ∈ rest, p = []) ∧
            r.fields =
              (if r.raw.getLast? = some '|' then rest.dropLast else rest) := by
  refine ⟨parseFrom_length_aux (text.splitOn '\n') 1, ?_⟩
  intro r hr
  obtain ⟨l, hl, j, hj⟩ := parseFrom_mem_origin (text.splitOn '\n') 1 r hr
  obtain ⟨hraw, hnb, pre, rest, hdec, hpre, hnil, hfields⟩ :=
    parseLine_content j l r hj
  subst hraw
  exact ⟨hl, hnb, pre, rest, hdec, hpre, hnil, hfields⟩

def c8WitnessRec : PRec :=
  ⟨1, "0150".data, ["A".data, "B".data], "|0150|A|B|".data⟩

/-- Witness for C8 (amended): the per-record content clause applied to the
record parsed from the concrete line `"|0150|A|B|"`. -/
theorem parse_nonblank_spec_witness :
    c8WitnessRec.raw ∈ ("|0150|A|B|".data).splitOn '\n' ∧
      pythonStrip c8WitnessRec.raw ≠ [] ∧
      ∃ pre rest,
        (pythonStrip c8WitnessRec.raw).splitOn '|' =
            pre ++ c8WitnessRec.reg :: rest ∧
          (∀ p ∈ pre, p = []) ∧
          (c8WitnessRec.reg = [] → pre = [] ∧ ∀ p ∈ rest, p = []) ∧
          c8WitnessRec.fields =
            (if c8WitnessRec.raw.getLast? = some '|'
              then rest.dropLast else rest) :=
  (parse_nonblank_spec "|0150|A|B|".data).2 c8WitnessRec (by decide)

/-! ## core/rules/base.py -/

/-- `base.Record`: `line_no`, `reg`, `fields`.  (The `parent` attribute is
consulted only by the impact analyzer, which gets its own record type
below.) -/
structure RecB where
  line_no : Nat
  reg : Str
  fields : List Str
deriving DecidableEq

/-- `Context.remove_record` (base.py lines 40-43): `if record in
self.records: self.records.remove(record)` — Python `list.remove` deletes
the first occurrence; the membership guard makes the call total. -/
def removeRecord (records : List RecB) (r : RecB) : List RecB :=
  if r ∈ records then records.erase r else records

/-- C10: `remove_record` never raises: when the record occurs in the list it
removes exactly one occurrence (leaving every other record's multiplicity
unchanged), and when it is absent the list is returned unchanged. -/
theorem removeRecord_spec (records : List RecB) (r : RecB) :
    (r ∈ records →
        (removeRecord records r).count r = records.count r - 1 ∧
          ∀ s, s ≠ r → (removeRecord records r).count s = records.count s) ∧
      (r ∉ records → removeRecord records r = records) := by
  constructor
  · intro h
    rw [removeRecord, if_pos h]
    exact ⟨List.count_erase_self r records,
      fun s hs => List.count_erase_of_ne hs records⟩
  · intro h
    rw [removeRecord, if_neg h]

def recB1 : RecB := ⟨1, "0150".data, ["0150".data]⟩

def recB2 : RecB := ⟨2, "C100".data, ["C100".data]⟩

/-- Witness for C10 at a concrete list: removing a present record deletes
one of its two occurrences, and removing an absent record is a no-op. -/
theorem removeRecord_spec_witness :
    (removeRecord [recB1, recB1, recB2] recB1).count recB1 = 1 ∧
      removeRecord [recB2] recB1 = [recB2] := by
  constructor
  · have h := (removeRecord_spec [recB1, recB1, recB2] recB1).1 (by decide)
    rw [h.1]
    decide
  · exact (removeRecord_spec [recB2] recB1).2 (by decide)

/-! ## `SPEDAutoFixer._load_spd` and `get_corrected_content`
(core/rules/main_rules.py) -/

/-- `_load_spd` (main_rules.py lines 25-51) over the lines of the file:
strip each line, skip blanks, take `line.split('|')[1:-1]` as the field
list (so the record type sits at field index 0), skip lines with no field,
and number lines from 1. -/
def loadSpd : Nat → List Str → List RecB
  | _, [] => []
  | i, l :: ls =>
    let s := pythonStrip l
    if s = [] then loadSpd (i + 1) ls
    else
      let fields := ((s.splitOn '|').drop 1).dropLast
      if fields.length < 1 then loadSpd (i + 1) ls
      else ⟨i, fields.headD [], fields⟩ :: loadSpd (i + 1) ls

/-- `get_corrected_content` (main_rules.py lines 234-242): each record is
emitted as `"|".join(record.fields) + "|"` and the lines are joined with
`"\n"`. -/
def getCorrectedContent (records : List RecB) : Str :=
  joinSep '\n' (records.map fun r => joinSep '|' r.fields ++ ['|'])

/-- C2: on the single-record file `"|0000|A|"`, `get_corrected_content`
emits `"0000|A|"` — the leading pipe of the canonical framing
`|REG|f1|…|fN|` is missing, because the writer joins the loaded fields
(whose first entry is the reg) and appends only the trailing pipe.  The
output cannot be re-read by `_load_spd` itself, which strips the first
`split('|')` token as framing. -/
theorem getCorrectedContent_drops_leading_pipe :
    loadSpd 1 ["|0000|A|".data] =
        [⟨1, "0000".data, ["0000".data, "A".data]⟩] ∧
      getCorrectedContent (loadSpd 1 ["|0000|A|".data]) = "0000|A|".data ∧
      "0000|A|".data ≠ "|0000|A|".data :=
  ⟨by decide, by decide, by decide⟩

/-! ## `SPEDTypeIdentifier.identify_type` (core/rules/base.py lines 68-129) -/

def pisCofinsRegs : List Str :=
  ["M100", "M200", "M500", "M600", "M110", "M210", "M510", "M610"].map
    String.data

def contribOpeningRegs : List Str := ["1001", "1010", "9001"].map String.data

/-- The CST values the identifier treats as normal for SPED Fiscal C170. -/
def fiscalCstValues : List Str :=
  ["", "50", "51", "52", "53", "54", "55", "56", "60", "61", "62", "63",
    "64", "65", "66", "67", "70", "71", "72", "73", "74", "75"].map
    String.data

def hasFiscalBlocks (rs : List RecB) : Bool :=
  rs.any fun r => r.reg.head? = some 'E' || r.reg.head? = some 'H'

def hasContribBlocks (rs : List RecB) : Bool :=
  rs.any fun r => r.reg.head? = some 'M' || r.reg.head? = some '1'

def hasPisCofinsBlocks (rs : List RecB) : Bool :=
  rs.any fun r => decide (r.reg ∈ pisCofinsRegs)

def hasContribOpening (rs : List RecB) : Bool :=
  rs.any fun r => decide (r.reg ∈ contribOpeningRegs)

/-- `cst and cst not in [...]`: non-empty and outside the fiscal set. -/
def cstOutsideFiscal (s : Str) : Bool :=
  decide (s ≠ []) && decide (s ∉ fiscalCstValues)

def hasValidContribCst (rs : List RecB) : Bool :=
  rs.any fun r =>
    decide (r.reg = "C170".data) && decide (32 < r.fields.length) &&
      (cstOutsideFiscal (r.fields.getD 29 []) ||
        cstOutsideFiscal (r.fields.getD 32 []))

/-- `SPEDTypeIdentifier.identify_type`, with the source's branch order. -/
def identifyType (rs : List RecB) : String :=
  if !hasContribBlocks rs && !hasPisCofinsBlocks rs && !hasContribOpening rs
      && !hasValidContribCst rs && hasFiscalBlocks rs then "fiscal"
  else if hasFiscalBlocks rs && (hasContribBlocks rs || hasPisCofinsBlocks rs
      || hasContribOpening rs || hasValidContribCst rs) then "both"
  else if hasContribBlocks rs || hasPisCofinsBlocks rs || hasContribOpening rs
      || hasValidContribCst rs then "contrib"
  else "unknown"

/-- C9: `identify_type` returns `both` when the fiscal side (a reg starting
with `E` or `H`) and some contrib indicator (reg starting with `M` or `1`,
a PIS/COFINS appraisal reg, a contrib opening reg, or a C170 CST at index
29/32 outside the fiscal-valid set) are both present; `fiscal` when only
the fiscal side is; `contrib` when a contrib indicator is present without
the fiscal side; `unknown` otherwise. -/
theorem identifyType_cases (rs : List RecB) :
    identifyType rs =
      (if hasFiscalBlocks rs && (hasContribBlocks rs || hasPisCofinsBlocks rs
          || hasContribOpening rs || hasValidContribCst rs) then "both"
       else if hasFiscalBlocks rs then "fiscal"
       else if hasContribBlocks rs || hasPisCofinsBlocks rs
          || hasContribOpening rs || hasValidContribCst rs then "contrib"
       else "unknown") := by
  unfold identifyType
  cases h1 : hasFiscalBlocks rs <;> cases h2 : hasContribBlocks rs <;>
    cases h3 : hasPisCofinsBlocks rs <;> cases h4 : hasContribOpening rs <;>
      cases h5 : hasValidContribCst rs <;> rfl

/-! ## Numeric helpers

Python `float` values are modelled as exact rationals.  SPED numeric fields
are short decimal strings, and the comparisons performed by the rules
(`abs(a - b) > 0.01`) agree between binary doubles and exact rationals at
every input exercised below. -/

/-- `only_digits` (basic_rules_fiscal.py line 13): delete non-digits. -/
def onlyDigits (s : Str) : Str := s.filter Char.isDigit

def digitsToNat (l : Str) : Nat := l.foldl (fun a c => a * 10 + (c.toNat - 48)) 0

def allDigits (l : Str) : Bool := l.all Char.isDigit

/-- Magnitude part of `float()` on a plain decimal literal `ddd[.ddd]`
(the shape of SPED numeric fields); `none` models `ValueError`. -/
def pyFloatMag (s : Str) : Option ℚ :=
  match s.splitOn '.' with
  | [a] => if a ≠ [] ∧ allDigits a then some (digitsToNat a) else none
  | [a, b] =>
      if (a ≠ [] ∨ b ≠ []) ∧ allDigits a ∧ allDigits b then
        some (digitsToNat a + (digitsToNat b : ℚ) / (10 ^ b.length))
      else none
  | _ => none

/-- Python `float(s)` on the decimal fragment. -/
def pyFloat? : Str → Option ℚ
  | [] => none
  | '-' :: t => (pyFloatMag t).map Neg.neg
  | '+' :: t => pyFloatMag t
  | s => pyFloatMag s

/-- Python `float(s or 0)`: the empty string falls back to `0`. -/
def pyFloatOr0 (s : Str) : Option ℚ := if s = [] then some 0 else pyFloat? s

/-- Python `f"{x:.2f}"`.  Exact for values that are a whole number of
cents (the only values formatted in the theorems below); CPython rounds
the nearest binary double half-to-even, which agrees there. -/
def fmt2 (q : ℚ) : Str :=
  let n : Int := round (q * 100)
  let sign : Str := if n < 0 then ['-'] else []
  let m := n.natAbs
  sign ++ Nat.toDigits 10 (m / 100) ++ '.' ::
    (if m % 100 < 10 then '0' :: Nat.toDigits 10 (m % 100)
     else Nat.toDigits 10 (m % 100))

/-- `base.Issue` (base.py lines 8-17).  The attributes the engine attaches
afterwards (`impacted_records`, `impact_details`, `record`) are not
modelled: no claim below inspects them. -/
structure Issue where
  line_no : Nat
  reg : Str
  rule_id : String
  severity : String
  message : Str
  suggestion : Option Str
deriving DecidableEq

/-! ## R007_DuplicateCNPJ (basic_rules_fiscal.py lines 205-241) -/

/-- The duplicate scan shared by R007's validate and fix:
`[r for r in context.records if r.reg == "0150" and
only_digits(r.fields[1]) == cnpj and r != record]`.
`none` models the IndexError raised when a `0150` record has fewer than
two fields. -/
def r007Duplicates (cnpj : Str) (rec : RecB) : List RecB → Option (List RecB)
  | [] => some []
  | r :: rs =>
    if r.reg = "0150".data then
      match r.fields.get? 1 with
      | none => none
      | some f =>
        match r007Duplicates cnpj rec rs with
        | none => none
        | some rest =>
            some (if onlyDigits f = cnpj ∧ r ≠ rec then r :: rest else rest)
    else r007Duplicates cnpj rec rs

def R007validate (rec : RecB) (ctx : List RecB) : Option (List Issue) :=
  if rec.reg ≠ "0150".data then some []
  else
    match rec.fields.get? 1 with
    | none => none
    | some f1 =>
      match r007Duplicates (onlyDigits f1) rec ctx with
      | none => none
      | some dups =>
        some (if dups ≠ [] then
          [⟨rec.line_no, rec.reg, "R007", "error",
            "CNPJ ".data ++ onlyDigits f1 ++ " duplicado".data,
            some "Manter apenas ultima ocorrencia".data⟩]
        else [])

/-- `R007.fix` removes every duplicate *other than the record it was
invoked on* (there is no reg guard in the source). -/
def R007fix (rec : RecB) (ctx : List RecB) : Option (List RecB) :=
  match rec.fields.get? 1 with
  | none => none
  | some f1 =>
    match r007Duplicates (onlyDigits f1) rec ctx with
    | none => none
    | some dups => some (dups.foldl removeRecord ctx)

def dup0150a : RecB := ⟨1, "0150".data, ["0150".data, "11.222.333/0001-81".data]⟩

def dup0150b : RecB := ⟨2, "0150".data, ["0150".data, "11222333000181".data]⟩

def dup0150c : RecB := ⟨3, "0150".data, ["0150".data, "11222333000181".data]⟩

def dupCtx : List RecB := [dup0150a, dup0150b, dup0150c]

/-- C4: on three `0150` records whose CNPJ normalises to the same digit
string, `validate` flags *each* of the three (one Issue per occurrence,
including the last — three in total, not the claimed two), and `fix`
applied to the first occurrence (the engine's order) keeps the *first*
record, not the last, contradicting the rule's own suggestion text
"Manter apenas ultima ocorrencia". -/
theorem r007_flags_all_and_keeps_first :
    (R007validate dup0150a dupCtx).map List.length = some 1 ∧
      (R007validate dup0150b dupCtx).map List.length = some 1 ∧
      (R007validate dup0150c dupCtx).map List.length = some 1 ∧
      R007fix dup0150a dupCtx = some [dup0150a] :=
  ⟨by decide, by decide, by decide, by decide⟩

/-! ## R015_DuplicateDocument (basic_rules_fiscal.py lines 435-473) -/

/-- `[r for r in context.records if r.reg == record.reg and r.fields[8] ==
key and r != record]`; `none` models the IndexError on a short record. -/
def r015Duplicates (key : Str) (rec : RecB) : List RecB → Option (List RecB)
  | [] => some []
  | r :: rs =>
    if r.reg = rec.reg then
      match r.fields.get? 8 with
      | none => none
      | some f =>
        match r015Duplicates key rec rs with
        | none => none
        | some rest => some (if f = key ∧ r ≠ rec then r :: rest else rest)
    else r015Duplicates key rec rs

def R015validate (rec : RecB) (ctx : List RecB) : Option (List Issue) :=
  if rec.reg ≠ "C100".data ∧ rec.reg ≠ "C500".data then some []
  else
    match rec.fields.get? 8 with
    | none => none
    | some key =>
      match r015Duplicates key rec ctx with
      | none => none
      | some dups =>
        some (if dups ≠ [] then
          [⟨rec.line_no, rec.reg, "R015", "error",
            "Documento ".data ++ key ++ " duplicado".data,
            some "Manter apenas ultima ocorrencia".data⟩]
        else [])

def R015fix (rec : RecB) (ctx : List RecB) : Option (List RecB) :=
  if rec.reg ≠ "C100".data ∧ rec.reg ≠ "C500".data then some ctx
  else
    match rec.fields.get? 8 with
    | none => none
    | some key =>
      match r015Duplicates key rec ctx with
      | none => none
      | some dups => some (dups.foldl removeRecord ctx)

/-! ## `SPEDAutoFixer.fix_all` (main_rules.py lines 71-104) -/

/-- A rule as the engine consumes it: `auto_fix` plus the two methods.
`fix` returns the record list after the (in-place) mutation of
`context.records`; `none` on either method models an exception, which
`fix_all` re-raises. -/
structure ERule where
  auto_fix : Bool
  validate : RecB → List RecB → Option (List Issue)
  fix : RecB → List RecB → Option (List RecB)

/-- The inner `for record in self.sped.records` loop of `fix_all` for one
rule, with CPython list-iterator semantics: the iterator holds an index
into the *live* list (`context.records` aliases `sped.records`), so a fix
that removes records shifts later elements into already-passed positions.
Returns (final records, issues, the trace of records `validate` was
invoked on).  The fuel bounds the iteration count; the rules used by
`fix_all` only remove records, so the list never grows and the initial
length is an exact bound (`none` would be returned if a fix enlarged the
list past it, which never happens below).  The impact enrichment performed
per issue does not affect control flow or the record list and is omitted
here. -/
def passLoop (rule : ERule) :
    Nat → Nat → List RecB → Option (List RecB × List Issue × List RecB)
  | 0, i, recs => if i < recs.length then none else some (recs, [], [])
  | fuel + 1, i, recs =>
    if h : i < recs.length then
      let r := recs.get ⟨i, h⟩
      match rule.validate r recs with
      | none => none
      | some ris =>
        match (if ris ≠ [] ∧ rule.auto_fix then rule.fix r recs
               else some recs) with
        | none => none
        | some recs2 =>
          match passLoop rule fuel (i + 1) recs2 with
          | none => none
          | some (fr, fis, tr) => some (fr, ris ++ fis, r :: tr)
    else some (recs, [], [])

/-- One rule's pass of `fix_all` (`fix_all` folds this over its rule list
in declared order). -/
def fixAllPass (rule : ERule) (recs : List RecB) :
    Option (List RecB × List Issue × List RecB) :=
  passLoop rule recs.length 0 recs

def r015Rule : ERule := ⟨true, R015validate, R015fix⟩

def c100a : RecB :=
  ⟨1, "C100".data,
    ["C100", "0", "1", "55", "00", "1", "123", "1", "KEY1"].map String.data⟩

def c100b : RecB :=
  ⟨2, "C100".data,
    ["C100", "0", "1", "55", "00", "1", "123", "2", "KEY1"].map String.data⟩

/-- C3 counterexample: with two duplicate C100 records, R015's fix (run on
the first record) removes the second from the live list, and the engine
never invokes `validate` on it — the visited trace is `[c100a]`, not the
start-of-pass snapshot `[c100a, c100b]`. -/
theorem engine_iterates_live_list :
    (fixAllPass r015Rule [c100a, c100b]).map (fun t => t.2.2) =
        some [c100a] ∧
      ([c100a] : List RecB) ≠ [c100a, c100b] :=
  ⟨by decide, by decide⟩

theorem passLoop_no_mutation (rule : ERule)
    (hfix : ∀ r c, rule.fix r c = some c)
    (hval : ∀ r c, (rule.validate r c).isSome) :
    ∀ (fuel i : Nat) (recs : List RecB), fuel + i = recs.length →
      ∃ is, passLoop rule fuel i recs = some (recs, is, recs.drop i)
  | 0, i, recs, hlen => by
      refine ⟨[], ?_⟩
      have hi : ¬ i < recs.length := by omega
      rw [passLoop, if_neg hi, List.drop_of_length_le (by omega)]
  | fuel + 1, i, recs, hlen => by
      have hi : i < recs.length := by omega
      obtain ⟨ris, hris⟩ := Option.isSome_iff_exists.mp
        (hval (recs.get ⟨i, hi⟩) recs)
      have hbranch : (if ris ≠ [] ∧ rule.auto_fix then
          rule.fix (recs.get ⟨i, hi⟩) recs else some recs) = some recs := by
        split
        · exact hfix _ _
        · rfl
      obtain ⟨is2, h2⟩ := passLoop_no_mutation rule hfix hval fuel (i + 1)
        recs (by omega)
      refine ⟨ris ++ is2, ?_⟩
      rw [passLoop, dif_pos hi]
      simp only [List.get_eq_getElem] at hris hbranch ⊢
      simp only [hris, hbranch, h2]
      rw [List.getElem_cons_drop recs i hi]

/-- C3 (amended): `fix_all` does not snapshot — it walks the live record
list by ascending index.  When the rule's fix leaves the record list
unchanged, `validate` is invoked exactly once per record, in file order;
but a fix that removes records shifts later records into already-visited
positions, which the engine then skips (see the counterexample). -/
theorem fixAllPass_no_mutation_visits_all (rule : ERule) (recs : List RecB)
    (hfix : ∀ r c, rule.fix r c = some c)
    (hval : ∀ r c, (rule.validate r c).isSome) :
    ∃ is, fixAllPass rule recs = some (recs, is, recs) := by
  have h := passLoop_no_mutation rule hfix hval recs.length 0 recs (by omega)
  simpa [fixAllPass] using h

def noopRule : ERule := ⟨false, fun _ _ => some [], fun _ c => some c⟩

/-- Witness for C3 (amended) at a concrete rule and record list. -/
theorem fixAllPass_no_mutation_visits_all_witness :
    ∃ is, fixAllPass noopRule [recB1, recB2] =
      some ([recB1, recB2], is, [recB1, recB2]) :=
  fixAllPass_no_mutation_visits_all noopRule [recB1, recB2]
    (fun _ _ => rfl) (fun _ _ => rfl)

/-! ## R014_InventoryValueMismatch (basic_rules_fiscal.py lines 396-432) -/

/-- `sum(float(r.fields[4] or 0) for r in context.records if r.reg ==
"H020")`; `none` models an IndexError / ValueError escaping the
generator (the H020 field access is unguarded in the source). -/
def sumH020 : List RecB → Option ℚ
  | [] => some 0
  | r :: rs =>
    if r.reg = "H020".data then
      match r.fields.get? 4 with
      | none => none
      | some f =>
        match pyFloatOr0 f with
        | none => none
        | some v =>
          match sumH020 rs with
          | none => none
          | some s => some (v + s)
    else sumH020 rs

/-- `R014.validate`: compares `float(record.fields[1] or 0)` on an H005
against the H020 sum with tolerance 0.01.  Numeric f-string interpolations
in the message are elided (no claim inspects them). -/
def R014validate (rec : RecB) (ctx : List RecB) : Option (List Issue) :=
  if rec.reg ≠ "H005".data then some []
  else
    match rec.fields.get? 1 with
    | none => none
    | some f1 =>
      match pyFloatOr0 f1 with
      | none => none
      | some total =>
        match sumH020 ctx with
        | none => none
        | some s =>
          some (if |total - s| > 1 / 100 then
            [⟨rec.line_no, rec.reg, "R014", "error",
              "Valor inventario diferente da soma dos itens".data,
              some "Ajustar valor total".data⟩]
          else [])

/-- `R014.fix`: recompute the H020 sum and assign
`record.fields[1] = f"{items_sum:.2f}"` in place (modelled by returning the
mutated record; the assignment raises when the record has fewer than two
fields). -/
def R014fix (rec : RecB) (ctx : List RecB) : Option RecB :=
  if rec.reg ≠ "H005".data then some rec
  else
    match sumH020 ctx with
    | none => none
    | some s =>
      if rec.fields.length < 2 then none
      else some ⟨rec.line_no, rec.reg, rec.fields.set 1 (fmt2 s)⟩

theorem pyFloatMag_pair (s a b : Str) (hs : s.splitOn '.' = [a, b])
    (hne : a ≠ []) (ha : allDigits a) (hb : allDigits b) :
    pyFloatMag s = some (digitsToNat a + (digitsToNat b : ℚ) / 10 ^ b.length) := by
  unfold pyFloatMag
  rw [hs]
  exact if_pos ⟨Or.inl hne, ha, hb⟩

/-- Evaluation helper for `pyFloatMag` on concrete decimal strings. -/
theorem pyFloatMag_eval (s a b : Str) (n m k : Nat) (q : ℚ)
    (hs : s.splitOn '.' = [a, b]) (hne : a ≠ [])
    (ha : allDigits a) (hb : allDigits b)
    (hda : digitsToNat a = n) (hdb : digitsToNat b = m) (hk : b.length = k)
    (hq : (n : ℚ) + (m : ℚ) / 10 ^ k = q) :
    pyFloatMag s = some q := by
  rw [pyFloatMag_pair s a b hs hne ha hb, hda, hdb, hk, hq]

theorem sumH020_cons_skip (r : RecB) (rs : List RecB)
    (hreg : r.reg ≠ "H020".data) : sumH020 (r :: rs) = sumH020 rs := by
  show (if r.reg = "H020".data then
      match r.fields.get? 4 with
      | none => none
      | some f =>
        match pyFloatOr0 f with
        | none => none
        | some v =>
          match sumH020 rs with
          | none => none
          | some s => some (v + s)
    else sumH020 rs) = sumH020 rs
  rw [if_neg hreg]

/-- Modelled from the claim's words, for refutation only: the sum of field
index 5 (`VL_ITEM`) over all H010 records. -/
def claimH010Sum : List RecB → Option ℚ
  | [] => some 0
  | r :: rs =>
    if r.reg = "H010".data then
      match r.fields.get? 5 with
      | none => none
      | some f =>
        match pyFloat? f with
        | none => none
        | some v =>
          match claimH010Sum rs with
          | none => none
          | some s => some (v + s)
    else claimH010Sum rs

def h005rec : RecB := ⟨1, "H005".data, ["H005".data, "250.00".data]⟩

def h010a : RecB :=
  ⟨2, "H010".data,
    ["H010", "I1", "UN", "1", "100.00", "100.00"].map String.data⟩

def h010b : RecB :=
  ⟨3, "H010".data,
    ["H010", "I2", "UN", "1", "150.00", "150.00"].map String.data⟩

def invCtx : List RecB := [h005rec, h010a, h010b]

/-- C5 counterexample: an H005 whose field 1 (250.00) *equals* the H010
field-5 sum (100.00 + 150.00 = 250.00) — the claim predicts no Issue —
yet R014 flags one, because it actually sums field 4 of H020 records
(none here, sum 0) and compares 250.00 against 0; its fix then writes
"0.00" into field 1, not the H010 sum. -/
theorem claimH010Sum_cons_add (r : RecB) (rs : List RecB) (f : Str)
    (v s : ℚ) (hreg : r.reg = "H010".data) (hf : r.fields.get? 5 = some f)
    (hv : pyFloat? f = some v) (hs : claimH010Sum rs = some s) :
    claimH010Sum (r :: rs) = some (v + s) := by
  unfold claimH010Sum
  rw [if_pos hreg]
  simp only [hf, hv, hs]

theorem claimH010Sum_cons_skip (r : RecB) (rs : List RecB)
    (hreg : r.reg ≠ "H010".data) :
    claimH010Sum (r :: rs) = claimH010Sum rs := by
  show (if r.reg = "H010".data then
      match r.fields.get? 5 with
      | none => none
      | some f =>
        match pyFloat? f with
        | none => none
        | some v =>
          match claimH010Sum rs with
          | none => none
          | some s => some (v + s)
    else claimH010Sum rs) = claimH010Sum rs
  rw [if_neg hreg]

theorem pyFloat_100 : pyFloat? "100.00".data = some 100 := by
  show pyFloatMag "100.00".data = some 100
  exact pyFloatMag_eval _ "100".data "00".data 100 0 2 100 (by decide)
    (by decide) (by decide) (by decide) (by decide) (by decide) (by decide)
    (by norm_num)

theorem pyFloat_150 : pyFloat? "150.00".data = some 150 := by
  show pyFloatMag "150.00".data = some 150
  exact pyFloatMag_eval _ "150".data "00".data 150 0 2 150 (by decide)
    (by decide) (by decide) (by decide) (by decide) (by decide) (by decide)
    (by norm_num)

theorem pyFloatOr0_250 : pyFloatOr0 "250.00".data = some 250 := by
  rw [pyFloatOr0, if_neg (by decide)]
  show pyFloatMag "250.00".data = some 250
  exact pyFloatMag_eval _ "250".data "00".data 250 0 2 250 (by decide)
    (by decide) (by decide) (by decide) (by decide) (by decide) (by decide)
    (by norm_num)

theorem sumH020_invCtx : sumH020 invCtx = some 0 := by
  show sumH020 (h005rec :: h010a :: h010b :: []) = some 0
  rw [sumH020_cons_skip _ _ (by decide), sumH020_cons_skip _ _ (by decide),
    sumH020_cons_skip _ _ (by decide)]
  rfl

theorem R014validate_eval (rec : RecB) (ctx : List RecB) (f1 : Str)
    (total s : ℚ) (hreg : rec.reg = "H005".data)
    (hf : rec.fields.get? 1 = some f1) (ht : pyFloatOr0 f1 = some total)
    (hs : sumH020 ctx = some s) :
    R014validate rec ctx =
      some (if |total - s| > 1 / 100 then
        [⟨rec.line_no, rec.reg, "R014", "error",
          "Valor inventario diferente da soma dos itens".data,
          some "Ajustar valor total".data⟩]
      else []) := by
  unfold R014validate
  rw [if_neg (by simp [hreg])]
  simp only [hf, ht, hs]

theorem R014fix_eval (rec : RecB) (ctx : List RecB) (s : ℚ)
    (hreg : rec.reg = "H005".data) (hs : sumH020 ctx = some s)
    (hlen : ¬ rec.fields.length < 2) :
    R014fix rec ctx =
      some ⟨rec.line_no, rec.reg, rec.fields.set 1 (fmt2 s)⟩ := by
  unfold R014fix
  rw [if_neg (by simp [hreg])]
  simp only [hs]
  rw [if_neg hlen]

theorem claimH010Sum_invCtx : claimH010Sum invCtx = some 250 := by
  have s2 : claimH010Sum [h010b] = some (150 + 0) :=
    claimH010Sum_cons_add h010b [] "150.00".data 150 0 (by decide)
      (by decide) pyFloat_150 rfl
  have s1 : claimH010Sum [h010a, h010b] = some (100 + (150 + 0)) :=
    claimH010Sum_cons_add h010a [h010b] "100.00".data 100 (150 + 0)
      (by decide) (by decide) pyFloat_100 s2
  have s0 : claimH010Sum invCtx = some (100 + (150 + 0)) := by
    show claimH010Sum (h005rec :: [h010a, h010b]) = _
    rw [claimH010Sum_cons_skip _ _ (by decide), s1]
  rw [s0]
  norm_num

theorem fmt2_zero : fmt2 0 = "0.00".data := by
  unfold fmt2
  rw [show round ((0 : ℚ) * 100) = 0 from by norm_num]
  decide

theorem r014_ignores_h010 :
    claimH010Sum invCtx = some 250 ∧
      pyFloatOr0 "250.00".data = some 250 ∧
      |(250 : ℚ) - 250| ≤ 1 / 100 ∧
      (R014validate h005rec invCtx).map List.length = some 1 ∧
      (R014fix h005rec invCtx).map (fun r => r.fields.getD 1 []) =
        some "0.00".data := by
  refine ⟨claimH010Sum_invCtx, pyFloatOr0_250, by norm_num, ?_, ?_⟩
  · have hval := R014validate_eval h005rec invCtx "250.00".data 250 0
      (by decide) (by decide) pyFloatOr0_250 sumH020_invCtx
    rw [hval, if_pos (by norm_num)]
    rfl
  · have hfix := R014fix_eval h005rec invCtx 0 (by decide) sumH020_invCtx
      (by decide)
    rw [hfix, show h005rec.fields.set 1 (fmt2 0) =
      ["H005".data, fmt2 0] from rfl, fmt2_zero]
    rfl

/-- C5 (amended): R014 flags an Issue exactly when the value at H005 field
index 1 differs from the sum of field index 4 over all H020 records by
more than 0.01, and its autofix overwrites field 1 with that H020 sum
formatted to two decimals.  (The H010 index-5 sum of the claim belongs to
the separate rule RH005, which reads VL_INV at index 2 and returns a fixed
copy that the engine discards.) -/
theorem r014_spec (rec : RecB) (ctx : List RecB) (q s : ℚ)
    (hreg : rec.reg = "H005".data)
    (hq : (rec.fields.get? 1).bind pyFloatOr0 = some q)
    (hs : sumH020 ctx = some s) :
    (∃ is, R014validate rec ctx = some is ∧
        (is ≠ [] ↔ 1 / 100 < |q - s|)) ∧
      R014fix rec ctx =
        some ⟨rec.line_no, rec.reg, rec.fields.set 1 (fmt2 s)⟩ := by
  cases hf : rec.fields.get? 1 with
  | none => rw [hf] at hq; exact absurd hq (by simp)
  | some f1 =>
    rw [hf, Option.some_bind] at hq
    have hlen : ¬ rec.fields.length < 2 := by
      obtain ⟨hlt, -⟩ := List.get?_eq_some.mp hf
      omega
    constructor
    · refine ⟨if |q - s| > 1 / 100 then
        [⟨rec.line_no, rec.reg, "R014", "error",
          "Valor inventario diferente da soma dos itens".data,
          some "Ajustar valor total".data⟩] else [], ?_, ?_⟩
      · exact R014validate_eval rec ctx f1 q s hreg hf hq hs
      · split
        · simp_all
        · simp_all
    · exact R014fix_eval rec ctx s hreg hs hlen

def h005only : RecB := ⟨1, "H005".data, ["H005".data, "500.00".data]⟩

/-- Witness for C5 (amended): H005 with field 1 = 500.00 and no H020
records (sum 0) — the mismatch exceeds 0.01, and fix writes the formatted
sum. -/
theorem r014_spec_witness :
    (∃ is, R014validate h005only [h005only] = some is ∧
        (is ≠ [] ↔ 1 / 100 < |(500 : ℚ) - 0|)) ∧
      R014fix h005only [h005only] =
        some ⟨h005only.line_no, h005only.reg,
          h005only.fields.set 1 (fmt2 0)⟩ :=
  r014_spec h005only [h005only] 500 0 (by decide)
    (by
      rw [show h005only.fields.get? 1 = some "500.00".data from by decide,
        Option.some_bind, pyFloatOr0, if_neg (by decide)]
      show pyFloatMag "500.00".data = some 500
      exact pyFloatMag_eval _ "500".data "00".data 500 0 2 500 (by decide)
        (by decide) (by decide) (by decide) (by decide) (by decide) (by decide)
        (by norm_num))
    (by rw [sumH020_cons_skip _ _ (by decide)]; rfl)

/-! ## SPEDComparator (core/sped_comparator.py)

Only the `missing_records` / `extra_records` summary counters are claimed
about; the value/quantity comparisons and the E200 and block-total
comparators never touch those two counters and are therefore not modelled
here. -/

/-- The per-kind collections `compare` receives
(`ref_data.get('C100', [])`, …). -/
structure SpedData where
  c100 : List RecB
  c170 : List RecB
  h010 : List RecB
  e200 : List RecB
deriving DecidableEq

/-- `_create_c100_dict` key: `fields[3]|fields[5]|fields[6]|fields[7]|fields[8]`. -/
def keyC100 (r : RecB) : Str :=
  joinSep '|' [r.fields.getD 3 [], r.fields.getD 5 [], r.fields.getD 6 [],
    r.fields.getD 7 [], r.fields.getD 8 []]

/-- `_create_c170_dict` / `_find_duplicates` key: the C100 key plus
`fields[2]`. -/
def keyC170 (r : RecB) : Str :=
  joinSep '|' [r.fields.getD 3 [], r.fields.getD 5 [], r.fields.getD 6 [],
    r.fields.getD 7 [], r.fields.getD 8 [], r.fields.getD 2 []]

/-- The key sequence entering `_create_c100_dict` (records with at least
nine fields).  The dict keeps distinct keys (last record wins); only key
membership and the number of distinct keys matter to the counters. -/
def keysC100 (l : List RecB) : List Str :=
  l.filterMap fun r => if 9 ≤ r.fields.length then some (keyC100 r) else none

def keysC170 (l : List RecB) : List Str :=
  l.filterMap fun r => if 9 ≤ r.fields.length then some (keyC170 r) else none

/-- `_create_h010_dict`: key `fields[1]`, records with ≥ 2 fields. -/
def keysH010 (l : List RecB) : List Str :=
  l.filterMap fun r =>
    if 2 ≤ r.fields.length then some (r.fields.getD 1 []) else none

/-- The missing/extra loops: one count per dict key of `xs` absent from
the dict of `ys`. -/
def keysNotIn (xs ys : List Str) : Nat :=
  (xs.dedup.filter fun k => k ∉ ys).length

/-- `_find_duplicates` reports, for every key, each record beyond the
first; the C170 comparator adds one `extra_records` per report, i.e.
`Σ (count k − 1)` over distinct keys. -/
def dupExcess (ks : List Str) : Nat :=
  (ks.dedup.map fun k => ks.count k - 1).sum

/-- The keys `_find_duplicates` reports (occurring at least twice). -/
def dupKeys (ks : List Str) : List Str :=
  ks.dedup.filter fun k => 2 ≤ ks.count k

/-- `summary['missing_records']` after `compare(ref, aud)`
(sped_comparator.py lines 35-70): contributions of the C100, C170 and
H010 missing-record loops. -/
def missingCount (ref aud : SpedData) : Nat :=
  keysNotIn (keysC100 ref.c100) (keysC100 aud.c100) +
    keysNotIn (keysC170 ref.c170) (keysC170 aud.c170) +
    keysNotIn (keysH010 ref.h010) (keysH010 aud.h010)

/-- `summary['extra_records']` after `compare(ref, aud)`: the C100 and
H010 extra loops, plus — for C170 — one per duplicate audit record and
one per non-duplicate audit key absent from the reference dict
(sped_comparator.py lines 178-253). -/
def extraCount (ref aud : SpedData) : Nat :=
  keysNotIn (keysC100 aud.c100) (keysC100 ref.c100) +
    (dupExcess (keysC170 aud.c170) +
      ((keysC170 aud.c170).dedup.filter fun k =>
        k ∉ keysC170 ref.c170 ∧ k ∉ dupKeys (keysC170 aud.c170)).length) +
    keysNotIn (keysH010 aud.h010) (keysH010 ref.h010)

def c170r : RecB :=
  ⟨1, "C170".data,
    ["C170", "1", "IT1", "CNP", "4", "MOD", "SER", "NUM", "DAT"].map
      String.data⟩

def c170s1 : RecB :=
  ⟨2, "C170".data,
    ["C170", "1", "IT1", "CNP", "4", "MOD", "SER", "NUM", "DAT"].map
      String.data⟩

def c170s2 : RecB :=
  ⟨3, "C170".data,
    ["C170", "2", "IT1", "CNP", "4", "MOD", "SER", "NUM", "DAT"].map
      String.data⟩

def refDup : SpedData := ⟨[], [c170r], [], []⟩

def audDup : SpedData := ⟨[], [c170s1, c170s2], [], []⟩

/-- C6 counterexample: with one reference C170 and two audit C170 sharing
its key, `compare(ref, aud)` counts one extra record (the duplicate) while
`compare(aud, ref)` counts zero missing records — the swap identity fails
in the presence of duplicate keys. -/
theorem comparator_swap_fails_on_duplicates :
    extraCount refDup audDup = 1 ∧ missingCount audDup refDup = 0 ∧
      (1 : Nat) ≠ 0 := ⟨by decide, by decide, by decide⟩

/-- In a duplicate-free key list every present key counts exactly once
(stated for the `BEq` instance of `Str`). -/
theorem str_count_eq_one :
    ∀ (ks : List Str), ks.Nodup → ∀ k ∈ ks, ks.count k = 1
  | [], _, k, hk => absurd hk (by simp)
  | a :: t, h, k, hk => by
      rw [List.count_cons]
      rcases List.mem_cons.mp hk with rfl | hkt
      · have h0 : t.count k = 0 :=
          List.count_eq_zero.mpr (List.nodup_cons.mp h).1
        simp [h0]
      · have h2 := str_count_eq_one t (List.nodup_cons.mp h).2 k hkt
        have hne : ¬ (a == k) = true := by
          intro hb
          exact (List.nodup_cons.mp h).1 (eq_of_beq hb ▸ hkt)
        simp [h2, hne]

theorem dupExcess_eq_zero (ks : List Str) (h : ks.Nodup) :
    dupExcess ks = 0 := by
  apply List.sum_eq_zero
  intro x hx
  obtain ⟨k, hk, rfl⟩ := List.mem_map.mp hx
  rw [str_count_eq_one ks h k (List.mem_dedup.mp hk)]
  rfl

theorem dupKeys_eq_nil (ks : List Str) (h : ks.Nodup) : dupKeys ks = [] := by
  rw [dupKeys, List.filter_eq_nil_iff]
  intro k hk
  rw [str_count_eq_one ks h k (List.mem_dedup.mp hk)]
  decide

/-- With no duplicate C170 key, the C170 extra computation reduces to the
plain key-difference count. -/
theorem c170Extra_of_nodup (ks rs : List Str) (h : ks.Nodup) :
    dupExcess ks +
        (ks.dedup.filter fun k => k ∉ rs ∧ k ∉ dupKeys ks).length =
      keysNotIn ks rs := by
  rw [dupExcess_eq_zero ks h, Nat.zero_add, keysNotIn]
  congr 1
  apply List.filter_congr
  intro k hk
  rw [dupKeys_eq_nil ks h]
  simp

/-- C6 (amended): swapping reference and audit swaps `missing_records`
with `extra_records` exactly, provided neither side's C170 collection
contains two (≥ 9-field) records with the same key; with duplicate C170
keys the audit-only duplicate detector breaks the symmetry (see the
counterexample). -/
theorem comparator_swap_symmetry (ref aud : SpedData)
    (href : (keysC170 ref.c170).Nodup) (haud : (keysC170 aud.c170).Nodup) :
    missingCount ref aud = extraCount aud ref ∧
      extraCount ref aud = missingCount aud ref := by
  constructor
  · rw [missingCount, extraCount,
      c170Extra_of_nodup (keysC170 ref.c170) (keysC170 aud.c170) href]
  · rw [missingCount, extraCount,
      c170Extra_of_nodup (keysC170 aud.c170) (keysC170 ref.c170) haud]

/-- Witness for C6 (amended) at concrete duplicate-free collections. -/
theorem comparator_swap_symmetry_witness :
    missingCount refDup ⟨[], [], [], []⟩ =
        extraCount ⟨[], [], [], []⟩ refDup ∧
      extraCount refDup ⟨[], [], [], []⟩ =
        missingCount ⟨[], [], [], []⟩ refDup :=
  comparator_swap_symmetry refDup ⟨[], [], [], []⟩ (by decide) (by decide)

/-! ## ImpactAnalyzer (core/rules/impact_analyzer.py) -/

/-- A record as the impact analyzer sees it (`base.Record` including its
`parent` attribute).  The Python parent pointers form a chain; `ancestors`
flattens that chain (direct parent first). -/
structure IRec where
  line_no : Nat
  reg : Str
  fields : List Str
  ancestors : List RecB
deriving DecidableEq

/-- `_get_doc_key` (impact_analyzer.py lines 65-71) along the ancestor
chain: a C100 yields `fields[8]` (`none` models the IndexError the caller
catches); a C170 recurses into its parent (`none` when the parent is
`None`, modelling the AttributeError the caller catches); any other reg
yields Python `None`.  All three `none` cases make
`_is_related_to_document` answer `False`, so conflating them is sound. -/
def getDocKeyAux : List RecB → Str → List Str → Option Str
  | anc, reg, fields =>
    if reg = "C100".data then fields.get? 8
    else if reg = "C170".data then
      match anc with
      | [] => none
      | p :: ps => getDocKeyAux ps p.reg p.fields
    else none

def getDocKey (r : IRec) : Option Str :=
  getDocKeyAux r.ancestors r.reg r.fields

/-- `_is_related_to_document` (impact_analyzer.py lines 50-63). -/
def isRelated (r : IRec) (d : IRec) : Bool :=
  if r.reg = "C190".data then
    match r.fields.get? 2, getDocKey d with
    | some a, some b => a == b
    | _, _ => false
  else if r.reg = "E110".data then true
  else false

/-- `_build_dependency_graph` lookup (`self.dependency_graph.get(current,
{})`): the impact regs of a record keyed at construction time.  The
`children` lists built there are always empty, so `trace_impact`'s child
loop contributes nothing and has no counterpart here. -/
def graphImpacts (ctx : List IRec) (r : IRec) : List Str :=
  if r ∈ ctx then
    if r.reg = "C100".data then ["C170".data, "C190".data, "E110".data]
    else if r.reg = "C170".data then ["C190".data, "E110".data]
    else if r.reg = "C190".data then ["E110".data]
    else []
  else []

/-- The records `trace_impact` appends to the queue while processing
`cur`: for every impact reg, the context records of that reg not yet
visited, where C190/E110 targets must be related to the *original*
defective record. -/
def tracePushes (ctx : List IRec) (d cur : IRec) (visited : List IRec) :
    List IRec :=
  (graphImpacts ctx cur).flatMap fun ir =>
    ctx.filter fun r =>
      decide (r.reg = ir) && decide (r ∉ visited) &&
        (if ir = "C190".data ∨ ir = "E110".data then isRelated r d else true)

/-- The `while queue:` loop of `trace_impact` (impact_analyzer.py lines
26-47).  The code appends to `visited` and `impacts` together, so the
returned `impacts` equals the visited list in insertion order; the fuel
is an upper bound on the number of iterations, proved sufficient below. -/
def traceLoop (ctx : List IRec) (d : IRec) :
    Nat → List IRec → List IRec → List IRec
  | 0, _, visited => visited
  | _ + 1, [], visited => visited
  | fuel + 1, cur :: queue, visited =>
    if cur ∈ visited then traceLoop ctx d fuel queue visited
    else
      traceLoop ctx d fuel (queue ++ tracePushes ctx d cur (visited ++ [cur]))
        (visited ++ [cur])

def traceFuel (ctx : List IRec) : Nat :=
  1 + (ctx.length + 1) * (3 * ctx.length + 2)

/-- `ImpactAnalyzer.trace_impact` (impact_analyzer.py lines 20-48). -/
def traceImpact (ctx : List IRec) (d : IRec) : List IRec :=
  traceLoop ctx d (traceFuel ctx) [d] []

/-- Modelled from the claim's words, for refutation only: the defective
record together with its C170 children (records whose parent is the
defective record), the C190 records with matching document key, and every
E110 record. -/
def specImpact (ctx : List IRec) (d : IRec) (r : IRec) : Prop :=
  r = d ∨ (r ∈ ctx ∧
    ((r.reg = "C170".data ∧
        r.ancestors.head? = some ⟨d.line_no, d.reg, d.fields⟩) ∨
      (r.reg = "C190".data ∧ r.fields.get? 2 = d.fields.get? 8) ∨
      r.reg = "E110".data))

instance (ctx : List IRec) (d r : IRec) : Decidable (specImpact ctx d r) := by
  unfold specImpact; infer_instance

def dC100 : IRec :=
  ⟨1, "C100".data,
    ["C100", "0", "1", "55", "00", "1", "123", "1", "KEY1"].map String.data,
    []⟩

def xC170 : IRec :=
  ⟨2, "C170".data, ["C170", "1", "IT"].map String.data, []⟩

def impCtx : List IRec := [dC100, xC170]

/-- C7 counterexample: `trace_impact` on a defective C100 returns *every*
C170 in the context, not only the defective record's children — here
`xC170` has no parent at all, yet it is returned. -/
theorem traceImpact_returns_nonchild_c170 :
    traceImpact impCtx dC100 = [dC100, xC170] ∧
      ¬ specImpact impCtx dC100 xC170 := ⟨by decide, by decide⟩

/-- The set `trace_impact` actually reaches from a defective C100 (proved
below): the record itself, every C170 in the context, and the related
C190/E110 records. -/
def tracePred (ctx : List IRec) (d : IRec) (r : IRec) : Prop :=
  r = d ∨ (r ∈ ctx ∧ (r.reg = "C170".data ∨
    ((r.reg = "C190".data ∨ r.reg = "E110".data) ∧ isRelated r d = true)))

theorem mem_graphImpacts {ctx : List IRec} {cur : IRec} {ir : Str}
    (h : ir ∈ graphImpacts ctx cur) :
    ir = "C170".data ∨ ir = "C190".data ∨ ir = "E110".data := by
  unfold graphImpacts at h
  split at h
  · split at h
    · simp at h
      tauto
    · split at h
      · simp at h
        tauto
      · split at h
        · simp at h
          tauto
        · simp at h
  · simp at h

/-- Every record ever pushed onto the queue lies in `tracePred`:
C170 targets are unconditional members, C190/E110 targets pass the
relatedness filter. -/
theorem tracePushes_subset (ctx : List IRec) (d cur : IRec)
    (visited : List IRec) :
    ∀ r ∈ tracePushes ctx d cur visited, tracePred ctx d r := by
  intro r hr
  rw [tracePushes, List.mem_flatMap] at hr
  obtain ⟨ir, hir, hfil⟩ := hr
  rw [List.mem_filter] at hfil
  obtain ⟨hctx, hcond⟩ := hfil
  simp only [Bool.and_eq_true, decide_eq_true_eq] at hcond
  obtain ⟨⟨hregr, -⟩, hif⟩ := hcond
  rcases mem_graphImpacts hir with h3 | h3 | h3
  · exact Or.inr ⟨hctx, Or.inl (hregr.trans h3)⟩
  · rw [h3] at hif hregr
    rw [if_pos (Or.inl rfl)] at hif
    exact Or.inr ⟨hctx, Or.inr ⟨Or.inl hregr, hif⟩⟩
  · rw [h3] at hif hregr
    rw [if_pos (Or.inr rfl)] at hif
    exact Or.inr ⟨hctx, Or.inr ⟨Or.inr hregr, hif⟩⟩

/-- `graphImpacts` of the defective C100 record itself. -/
theorem graphImpacts_defective {ctx : List IRec} {d : IRec}
    (hreg : d.reg = "C100".data) (hd : d ∈ ctx) :
    graphImpacts ctx d = ["C170".data, "C190".data, "E110".data] := by
  unfold graphImpacts
  rw [if_pos hd, if_pos hreg]

/-- Every `tracePred` member other than the defective record itself is
pushed when the defective record is processed. -/
theorem tracePushes_complete (ctx : List IRec) (d : IRec)
    (visited : List IRec) (hreg : d.reg = "C100".data) (hd : d ∈ ctx) :
    ∀ r, tracePred ctx d r → r ≠ d → r ∉ visited →
      r ∈ tracePushes ctx d d visited := by
  intro r hr hrd hrv
  rcases hr with rfl | ⟨hctx, hcase⟩
  · exact absurd rfl hrd
  rw [tracePushes, List.mem_flatMap]
  refine ⟨r.reg, ?_, ?_⟩
  · rw [graphImpacts_defective hreg hd]
    rcases hcase with h | ⟨h | h, -⟩ <;> simp [h]
  · rw [List.mem_filter]
    refine ⟨hctx, ?_⟩
    simp only [Bool.and_eq_true, decide_eq_true_eq]
    refine ⟨⟨trivial, hrv⟩, ?_⟩
    rcases hcase with h | ⟨h | h, hrel⟩
    · rw [if_neg (by rw [h]; decide)]
    · rw [if_pos (Or.inl h)]
      exact hrel
    · rw [if_pos (Or.inr h)]
      exact hrel

theorem tracePred_mem_ctx {ctx : List IRec} {d : IRec} (hd : d ∈ ctx) :
    ∀ r, tracePred ctx d r → r ∈ ctx := by
  intro r hr
  rcases hr with rfl | ⟨h, -⟩
  · exact hd
  · exact h

theorem graphImpacts_length_le (ctx : List IRec) (cur : IRec) :
    (graphImpacts ctx cur).length ≤ 3 := by
  unfold graphImpacts
  split
  · split
    · simp
    · split
      · simp
      · split <;> simp
  · simp

theorem flatMap_filter_length_le (ctx : List IRec) (g : List Str)
    (f : Str → IRec → Bool) :
    (g.flatMap fun ir => ctx.filter (f ir)).length ≤
      g.length * ctx.length := by
  induction g with
  | nil => simp
  | cons a t ih =>
      rw [List.flatMap_cons, List.length_append, List.length_cons,
        Nat.succ_mul]
      have h1 := List.length_filter_le (f a) ctx
      omega

theorem tracePushes_length_le (ctx : List IRec) (d cur : IRec)
    (visited : List IRec) :
    (tracePushes ctx d cur visited).length ≤ 3 * ctx.length := by
  have h1 := flatMap_filter_length_le ctx (graphImpacts ctx cur)
    (fun ir r => decide (r.reg = ir) && decide (r ∉ visited) &&
      (if ir = "C190".data ∨ ir = "E110".data then isRelated r d else true))
  have h2 := graphImpacts_length_le ctx cur
  calc (tracePushes ctx d cur visited).length
      ≤ (graphImpacts ctx cur).length * ctx.length := h1
    _ ≤ 3 * ctx.length := Nat.mul_le_mul_right _ h2

theorem nodup_subset_length_le (v c : List IRec) (hn : v.Nodup)
    (hs : ∀ x ∈ v, x ∈ c) : v.length ≤ c.length :=
  calc v.length = v.toFinset.card := (List.toFinset_card_of_nodup hn).symm
    _ ≤ c.toFinset.card := Finset.card_le_card
        (fun x hx => List.mem_toFinset.2 (hs x (List.mem_toFinset.1 hx)))
    _ ≤ c.length := List.toFinset_card_le c

/-- Invariant-based correctness of `trace_impact`'s loop: once the queue
and visited lists sit inside `tracePred`, every `tracePred` member is
covered as soon as the defective record has been processed, and the fuel
dominates the remaining work, the loop returns exactly the `tracePred`
members. -/
theorem traceLoop_spec (ctx : List IRec) (d : IRec)
    (hreg : d.reg = "C100".data) (hd : d ∈ ctx) :
    ∀ (fuel : Nat) (queue visited : List IRec),
      (∀ r ∈ queue, tracePred ctx d r) →
      (∀ r ∈ visited, tracePred ctx d r) →
      (d ∈ visited → ∀ r, tracePred ctx d r → r ∈ visited ∨ r ∈ queue) →
      (d ∈ visited ∨ d ∈ queue) →
      visited.Nodup →
      queue.length +
          (ctx.length - visited.length) * (3 * ctx.length + 2) ≤ fuel →
      ∀ r, r ∈ traceLoop ctx d fuel queue visited ↔ tracePred ctx d r
  | 0, queue, visited, hq, hv, hcov, hdq, hnd, hfuel => by
      have hqe : queue = [] := by
        rw [← List.length_eq_zero]
        omega
      subst hqe
      have hdv : d ∈ visited := hdq.elim id (by simp)
      intro r
      rw [traceLoop]
      constructor
      · exact hv r
      · intro hr
        rcases hcov hdv r hr with h | h
        · exact h
        · simp at h
  | fuel + 1, [], visited, hq, hv, hcov, hdq, hnd, hfuel => by
      have hdv : d ∈ visited := hdq.elim id (by simp)
      intro r
      rw [traceLoop]
      constructor
      · exact hv r
      · intro hr
        rcases hcov hdv r hr with h | h
        · exact h
        · simp at h
  | fuel + 1, cur :: queue, visited, hq, hv, hcov, hdq, hnd, hfuel => by
      by_cases hmem : cur ∈ visited
      · have ih := traceLoop_spec ctx d hreg hd fuel queue visited
          (fun r hr => hq r (by simp [hr]))
          hv
          (by
            intro hdv r hr
            rcases hcov hdv r hr with h | h
            · exact Or.inl h
            · rcases List.mem_cons.mp h with rfl | h2
              · exact Or.inl hmem
              · exact Or.inr h2)
          (by
            rcases hdq with h | h
            · exact Or.inl h
            · rcases List.mem_cons.mp h with rfl | h2
              · exact Or.inl hmem
              · exact Or.inr h2)
          hnd
          (by simp at hfuel ⊢; omega)
        intro r
        rw [traceLoop, if_pos hmem]
        exact ih r
      · have hcur : tracePred ctx d cur := hq cur (by simp)
        have hcurctx : cur ∈ ctx := tracePred_mem_ctx hd cur hcur
        have hnd2 : (visited ++ [cur]).Nodup := by
          rw [← List.concat_eq_append]
          exact List.Nodup.concat hmem hnd
        have hsub2 : ∀ x ∈ visited ++ [cur], x ∈ ctx := by
          intro x hx
          rcases List.mem_append.mp hx with h | h
          · exact tracePred_mem_ctx hd x (hv x h)
          · simp at h
            subst h
            exact hcurctx
        have hlen2 : visited.length + 1 ≤ ctx.length := by
          have h1 := nodup_subset_length_le (visited ++ [cur]) ctx hnd2 hsub2
          simpa using h1
        have hpush := tracePushes_length_le ctx d cur (visited ++ [cur])
        have harith : (ctx.length - visited.length) * (3 * ctx.length + 2) =
            (ctx.length - (visited.length + 1)) * (3 * ctx.length + 2) +
              (3 * ctx.length + 2) := by
          rw [show ctx.length - visited.length =
            (ctx.length - (visited.length + 1)) + 1 from by omega,
            Nat.succ_mul]
        have ih := traceLoop_spec ctx d hreg hd fuel
          (queue ++ tracePushes ctx d cur (visited ++ [cur]))
          (visited ++ [cur])
          (by
            intro r hr
            rcases List.mem_append.mp hr with h | h
            · exact hq r (by simp [h])
            · exact tracePushes_subset ctx d cur (visited ++ [cur]) r h)
          (by
            intro r hr
            rcases List.mem_append.mp hr with h | h
            · exact hv r h
            · simp at h
              subst h
              exact hcur)
          (by
            intro hdv r hr
            rcases List.mem_append.mp hdv with hdvis | hdcur
            · rcases hcov hdvis r hr with h | h
              · exact Or.inl (List.mem_append_left _ h)
              · rcases List.mem_cons.mp h with rfl | h2
                · exact Or.inl (List.mem_append_right _ (by simp))
                · exact Or.inr (List.mem_append_left _ h2)
            · have hdc : d = cur := by simpa using hdcur
              subst hdc
              by_cases hrv : r ∈ visited ++ [d]
              · exact Or.inl hrv
              · have hrd : r ≠ d := by
                  intro h
                  subst h
                  exact hrv (List.mem_append_right _ (by simp))
                exact Or.inr (List.mem_append_right _
                  (tracePushes_complete ctx d (visited ++ [d])
                    hreg hd r hr hrd hrv))
            )
          (by
            rcases hdq with h | h
            · exact Or.inl (List.mem_append_left _ h)
            · rcases List.mem_cons.mp h with rfl | h2
              · exact Or.inl (List.mem_append_right _ (by simp))
              · exact Or.inr (List.mem_append_left _ h2))
          hnd2
          (by
            have hq1 : (queue ++
                tracePushes ctx d cur (visited ++ [cur])).length =
                queue.length +
                  (tracePushes ctx d cur (visited ++ [cur])).length :=
              List.length_append _ _
            have hv1 : (visited ++ [cur]).length = visited.length + 1 := by
              simp
            rw [hq1, hv1]
            simp only [List.length_cons] at hfuel
            rw [harith] at hfuel
            omega)
        intro r
        rw [traceLoop, if_neg hmem]
        exact ih r

/-- C7 (amended): for a defective C100 record `d` in the context (with a
document key at field 8, distinct records), `trace_impact(d)` returns
exactly: `d`, *every* C170 record in the context (regardless of parent),
the C190 records whose field 2 equals `d`'s field 8, and every E110
record.  The static graph's `children` lists are always empty, so "d's
C170 children" plays no role — all C170s are reached through the `C170`
impact edge. -/
theorem traceImpact_members (ctx : List IRec) (d : IRec) (key : Str)
    (hreg : d.reg = "C100".data) (hd : d ∈ ctx)
    (hkey : d.fields.get? 8 = some key) :
    ∀ r, r ∈ traceImpact ctx d ↔
      (r = d ∨ (r ∈ ctx ∧ (r.reg = "C170".data ∨
        (r.reg = "C190".data ∧ r.fields.get? 2 = some key) ∨
        r.reg = "E110".data))) := by
  have hdk : getDocKey d = some key := by
    rw [getDocKey, getDocKeyAux.eq_def]
    dsimp only
    rw [if_pos hreg]
    exact hkey
  have hrel : ∀ s : IRec, tracePred ctx d s ↔
      (s = d ∨ (s ∈ ctx ∧ (s.reg = "C170".data ∨
        (s.reg = "C190".data ∧ s.fields.get? 2 = some key) ∨
        s.reg = "E110".data))) := by
    intro s
    unfold tracePred
    constructor
    · rintro (rfl | ⟨hctx, h | ⟨h190 | h110, hr⟩⟩)
      · exact Or.inl rfl
      · exact Or.inr ⟨hctx, Or.inl h⟩
      · refine Or.inr ⟨hctx, Or.inr (Or.inl ⟨h190, ?_⟩)⟩
        rw [isRelated, if_pos h190, hdk] at hr
        cases hf2 : s.fields.get? 2 with
        | none => rw [hf2] at hr; simp at hr
        | some a =>
            rw [hf2] at hr
            simp only [beq_iff_eq] at hr
            rw [hr]
      · exact Or.inr ⟨hctx, Or.inr (Or.inr h110)⟩
    · rintro (rfl | ⟨hctx, h | ⟨h190, hf2⟩ | h110⟩)
      · exact Or.inl rfl
      · exact Or.inr ⟨hctx, Or.inl h⟩
      · refine Or.inr ⟨hctx, Or.inr ⟨Or.inl h190, ?_⟩⟩
        rw [isRelated, if_pos h190, hdk, hf2]
        simp
      · refine Or.inr ⟨hctx, Or.inr ⟨Or.inr h110, ?_⟩⟩
        rw [isRelated, if_neg (by rw [h110]; decide), if_pos h110]
  intro r
  have hloop := traceLoop_spec ctx d hreg hd (traceFuel ctx) [d] []
    (by
      intro x hx
      have hx2 : x = d := by simpa using hx
      exact Or.inl hx2)
    (by intro x hx; simp at hx)
    (by intro h; simp at h)
    (Or.inr (by simp))
    List.nodup_nil
    (by
      rw [traceFuel]
      have h1 : (ctx.length + 1) * (3 * ctx.length + 2) =
          ctx.length * (3 * ctx.length + 2) + (3 * ctx.length + 2) :=
        Nat.succ_mul _ _
      simp only [List.length_cons, List.length_nil, Nat.sub_zero]
      omega)
    r
  rw [traceImpact, hloop]
  exact hrel r

/-- Witness for C7 (amended): the membership characterisation applied to
the concrete two-record context at the parentless C170. -/
theorem traceImpact_members_witness :
    xC170 ∈ traceImpact impCtx dC100 ↔
      (xC170 = dC100 ∨ (xC170 ∈ impCtx ∧ (xC170.reg = "C170".data ∨
        (xC170.reg = "C190".data ∧
          xC170.fields.get? 2 = some "KEY1".data) ∨
        xC170.reg = "E110".data))) :=
  traceImpact_members impCtx dC100 "KEY1".data (by decide) (by decide)
    (by decide) xC170
